import Mathlib

/-!
Shallow embedding of src/src/protocol/decoder.js, a pull-based binary decoder
for a big-endian wire protocol (fixed-width integers, zigzag varints,
length-prefixed strings and bytes, arrays, sub-decoder slicing).

Modelling conventions:
- a Node Buffer is a List Nat of byte values; string values are represented by
  their UTF-8 byte content (the toString step decodes exactly those bytes);
- JavaScript numbers that hold integers are embedded as Int; the 32-bit
  coercions performed by the JS bitwise operators are explicit (wrapU 32 /
  wrapS 32 below, matching ECMAScript ToUint32 / ToInt32);
- fallible operations (Node Buffer reads that throw a bounds error) return
  Option; None is the thrown error;
- the decoder offset is an Int, since the source can move it below zero or
  past the end of the buffer.
-/

/-- Unsigned value of the low w bits of an integer (ECMAScript ToUint32 for
w = 32, and the analogous 64-bit pattern for the Long collaborator). -/
def wrapU (w : Nat) (x : Int) : Nat := (x % (2 : Int) ^ w).toNat

/-- Signed two's-complement value of the low w bits of an integer
(ECMAScript ToInt32 for w = 32). -/
def wrapS (w : Nat) (x : Int) : Int :=
  if wrapU w x < 2 ^ (w - 1) then (wrapU w x : Int) else (wrapU w x : Int) - 2 ^ w

/-- JavaScript bitwise AND: both operands coerced to int32, bitwise and. -/
def jsAnd (a b : Int) : Int := wrapS 32 ((wrapU 32 a &&& wrapU 32 b : Nat) : Int)

/-- JavaScript bitwise XOR: both operands coerced to int32, bitwise xor. -/
def jsXor (a b : Int) : Int := wrapS 32 ((wrapU 32 a ^^^ wrapU 32 b : Nat) : Int)

/-- JavaScript left shift: left operand coerced to int32, shift count taken
mod 32, result an int32. -/
def jsShl (a : Int) (s : Nat) : Int := wrapS 32 ((wrapU 32 a : Int) * 2 ^ (s % 32))

/-- JavaScript arithmetic (sign-propagating) right shift; Int division is
floor division for a positive divisor, which is exactly the arithmetic
shift on the int32 value. -/
def jsShr (a : Int) (s : Nat) : Int := wrapS 32 a / 2 ^ (s % 32)

/-- JavaScript unsigned right shift: operand coerced to uint32, logical
shift, non-negative result. -/
def jsShrU (a : Int) (s : Nat) : Int := ((wrapU 32 a / 2 ^ (s % 32) : Nat) : Int)

/-- Modelled from the spec: the 64-bit arithmetic collaborator
(src/utils/long, required by decoder.js but not under src/). The spec asks
for construction from an integer literal, unsigned right-shift, bitwise AND,
XOR, addition, left-shift and two's-complement negation over a signed 64-bit
representation. A Long value is embedded as its signed 64-bit integer value. -/
def Long.fromInt (n : Int) : Int := wrapS 64 n

/-- Long addition, wrapping to 64 bits. -/
def Long.add (a b : Int) : Int := wrapS 64 (a + b)

/-- Long left shift, shift count mod 64, wrapping to 64 bits. -/
def Long.shiftLeft (a : Int) (s : Nat) : Int := wrapS 64 ((wrapU 64 a : Int) * 2 ^ (s % 64))

/-- Long arithmetic right shift. -/
def Long.shiftRight (a : Int) (s : Nat) : Int := wrapS 64 a / 2 ^ (s % 64)

/-- Long unsigned right shift on the 64-bit pattern. -/
def Long.shiftRightUnsigned (a : Int) (s : Nat) : Int :=
  wrapS 64 ((wrapU 64 a / 2 ^ (s % 64) : Nat) : Int)

/-- Long bitwise XOR on the 64-bit patterns. -/
def Long.xor (a b : Int) : Int := wrapS 64 ((wrapU 64 a ^^^ wrapU 64 b : Nat) : Int)

/-- Long bitwise AND on the 64-bit patterns. -/
def Long.and (a b : Int) : Int := wrapS 64 ((wrapU 64 a &&& wrapU 64 b : Nat) : Int)

/-- Long two's-complement negation, wrapping to 64 bits. -/
def Long.negate (a : Int) : Int := wrapS 64 (-a)

/-- JavaScript indexing buffer[i]: some byte when i is in bounds, none
(undefined) otherwise. -/
def jsIndex (buf : List Nat) (i : Int) : Option Nat :=
  if h : 0 ≤ i ∧ i < buf.length then some (buf.get ⟨i.toNat, by omega⟩) else none

/-- Node Buffer slice / TypedArray subarray index arithmetic: negative
indices count from the end, then both ends are clamped to [0, length],
and an empty list results when start is at or past end. -/
def jsSlice (buf : List Nat) (start stop : Int) : List Nat :=
  let len : Int := buf.length
  let s : Int := max 0 (min len (if start < 0 then len + start else start))
  let e : Int := max 0 (min len (if stop < 0 then len + stop else stop))
  (buf.take e.toNat).drop s.toNat

/-- Contiguous bytes buf[off ... off+w), or none when the range is not fully
in bounds; this is the validation Node Buffer read helpers perform (they
throw a bounds error when the first or last byte is undefined). -/
def bytesAt (buf : List Nat) (off : Int) (w : Nat) : Option (List Nat) :=
  if 0 ≤ off ∧ off + w ≤ buf.length then some ((buf.drop off.toNat).take w) else none

/-- Big-endian unsigned assembly of a byte list. -/
def beNat (bs : List Nat) : Nat := bs.foldl (fun a b => 256 * a + b) 0

/-- The decoder entity: an immutable byte buffer plus a mutable cursor. -/
structure Decoder where
  buffer : List Nat
  offset : Int
deriving DecidableEq, Repr

/-- Static Decoder.decodeZigZag(value) = (value >>> 1) ^ -(value & 1). -/
def Decoder.decodeZigZag (value : Int) : Int :=
  jsXor (jsShrU value 1) (-(jsAnd value 1))

/-- Static Decoder.decodeZigZag64(v) =
v.shiftRightUnsigned(1).xor(v.and(Long.fromInt(1)).negate()). -/
def Decoder.decodeZigZag64 (longValue : Int) : Int :=
  Long.xor (Long.shiftRightUnsigned longValue 1)
    (Long.negate (Long.and longValue (Long.fromInt 1)))

/-- readInt8: next byte as a signed 8-bit value, offset advanced by 1;
Node buffer.readInt8 throws when out of bounds. -/
def Decoder.readInt8 (d : Decoder) : Option (Int × Decoder) :=
  match bytesAt d.buffer d.offset 1 with
  | some bs => some (wrapS 8 (beNat bs), { d with offset := d.offset + 1 })
  | none => none

/-- readInt16: next two bytes as a big-endian signed 16-bit value, offset
advanced by 2; Node buffer.readInt16BE throws when out of bounds. -/
def Decoder.readInt16 (d : Decoder) : Option (Int × Decoder) :=
  match bytesAt d.buffer d.offset 2 with
  | some bs => some (wrapS 16 (beNat bs), { d with offset := d.offset + 2 })
  | none => none

/-- readInt32: next four bytes as a big-endian signed 32-bit value, offset
advanced by 4; Node buffer.readInt32BE throws when out of bounds. -/
def Decoder.readInt32 (d : Decoder) : Option (Int × Decoder) :=
  match bytesAt d.buffer d.offset 4 with
  | some bs => some (wrapS 32 (beNat bs), { d with offset := d.offset + 4 })
  | none => none

/-- readBigInt64BE (lines 61-83 of the source): checks the first and last of
the eight bytes, then combines a high int32 half (the shift of the first
byte wraps, hence the sign) with an unsigned low half as (high << 32) + low. -/
def Decoder.readBigInt64BE (buf : List Nat) (off : Int) : Option Int :=
  match bytesAt buf off 8 with
  | some bs => some (wrapS 32 ((beNat (bs.take 4) : Nat) : Int) * 2 ^ 32 + (beNat (bs.drop 4) : Int))
  | none => none

/-- readInt64: eight bytes via readBigInt64BE, offset advanced by 8. -/
def Decoder.readInt64 (d : Decoder) : Option (Int × Decoder) :=
  match Decoder.readBigInt64BE d.buffer d.offset with
  | some v => some (v, { d with offset := d.offset + 8 })
  | none => none

/-- canReadBytes(length) = Buffer.byteLength(buffer) - offset >= length. -/
def Decoder.canReadBytes (d : Decoder) (length : Int) : Bool :=
  length ≤ (d.buffer.length : Int) - d.offset

/-- readString: int16 length prefix; -1 yields the null sentinel with no
payload consumed; otherwise the value is buffer.slice(offset, offset+len)
(whose UTF-8 byte content we return) and offset advances by the prefix. -/
def Decoder.readString (d : Decoder) : Option (Option (List Nat) × Decoder) :=
  match d.readInt16 with
  | none => none
  | some (byteLength, d1) =>
    if byteLength = -1 then some (none, d1)
    else
      some (some (jsSlice d1.buffer d1.offset (d1.offset + byteLength)),
        { d1 with offset := d1.offset + byteLength })

/-- readBytes with no explicit argument: int32 length prefix; -1 yields the
null sentinel; otherwise a slice of that many bytes (clamped by the Node
slice semantics) and offset advances by the prefix. -/
def Decoder.readBytes (d : Decoder) : Option (Option (List Nat) × Decoder) :=
  match d.readInt32 with
  | none => none
  | some (byteLength, d1) =>
    if byteLength = -1 then some (none, d1)
    else
      some (some (jsSlice d1.buffer d1.offset (d1.offset + byteLength)),
        { d1 with offset := d1.offset + byteLength })

/-- readBytes with a caller-supplied explicit byteLength: no prefix is read;
the path cannot throw, so no Option is needed. -/
def Decoder.readBytesExplicit (d : Decoder) (byteLength : Int) : Option (List Nat) × Decoder :=
  if byteLength = -1 then (none, d)
  else
    (some (jsSlice d.buffer d.offset (d.offset + byteLength)),
      { d with offset := d.offset + byteLength })

/-- readAll: buffer.slice(offset) as the value, offset advanced by the total
buffer length (the documented quirk of the source). -/
def Decoder.readAll (d : Decoder) : List Nat × Decoder :=
  (jsSlice d.buffer d.offset (d.buffer.length : Int),
    { d with offset := d.offset + (d.buffer.length : Int) })

/-- Element loop of readArray: invoke the reader count times in order,
threading the decoder; a reader failure propagates. -/
def Decoder.readArrayLoop {α : Type} (reader : Decoder → Option (α × Decoder)) :
    Nat → Decoder → Option (List α × Decoder)
  | 0, d => some ([], d)
  | n + 1, d =>
    match reader d with
    | none => none
    | some (a, d1) =>
      match Decoder.readArrayLoop reader n d1 with
      | none => none
      | some (as, d2) => some (a :: as, d2)

/-- readArray: int32 count prefix; -1 yields an empty array (not the null
sentinel); otherwise the reader runs count times (a negative non--1 count
runs the loop zero times, as the JS for loop does). -/
def Decoder.readArray {α : Type} (d : Decoder) (reader : Decoder → Option (α × Decoder)) :
    Option (List α × Decoder) :=
  match d.readInt32 with
  | none => none
  | some (length, d1) =>
    if length = -1 then some ([], d1)
    else Decoder.readArrayLoop reader length.toNat d1

/-- Accumulation loop of readVarInt over the bytes from the current offset:
result += (currentByte & 0x7f) << i, i += 7, while the continuation bit is
set. The empty case is the out-of-bounds access: undefined & 0x7f shifts to
0, the comparison with 0x80 is false, and the offset was still incremented,
so the loop contributes one consumed position and nothing to the result.
The second component is the number of offset increments performed. -/
def Decoder.varIntLoop : List Nat → Nat → Int → Int × Nat
  | [], _, result => (result, 1)
  | b :: rest, i, result =>
    if 128 ≤ b then
      let r := Decoder.varIntLoop rest (i + 7) (result + jsShl (jsAnd (b : Int) 127) i)
      (r.1, r.2 + 1)
    else (result + jsShl (jsAnd (b : Int) 127) i, 1)

/-- readVarInt: continuation-bit accumulation, then zigzag decoding.
A negative offset indexes nothing (undefined), exactly like running off the
end, hence the empty remainder in that case. -/
def Decoder.readVarInt (d : Decoder) : Int × Decoder :=
  let rest := if d.offset < 0 then [] else d.buffer.drop d.offset.toNat
  let r := Decoder.varIntLoop rest 0 0
  (Decoder.decodeZigZag r.1, { d with offset := d.offset + (r.2 : Int) })

/-- Accumulation loop of readVarLong, with Long (64-bit) arithmetic:
result = result.add(Long.fromInt(currentByte & 0x7f).shiftLeft(i)). -/
def Decoder.varLongLoop : List Nat → Nat → Int → Int × Nat
  | [], _, result => (result, 1)
  | b :: rest, i, result =>
    if 128 ≤ b then
      let r := Decoder.varLongLoop rest (i + 7)
        (Long.add result (Long.shiftLeft (Long.fromInt (jsAnd (b : Int) 127)) i))
      (r.1, r.2 + 1)
    else (Long.add result (Long.shiftLeft (Long.fromInt (jsAnd (b : Int) 127)) i), 1)

/-- readVarLong: continuation-bit accumulation in Long arithmetic, then
64-bit zigzag decoding. -/
def Decoder.readVarLong (d : Decoder) : Int × Decoder :=
  let rest := if d.offset < 0 then [] else d.buffer.drop d.offset.toNat
  let r := Decoder.varLongLoop rest 0 (Long.fromInt 0)
  (Decoder.decodeZigZag64 r.1, { d with offset := d.offset + (r.2 : Int) })

/-- slice(size): a fresh Decoder over buffer.slice(offset, offset + size)
with its own offset 0; the parent offset is untouched. -/
def Decoder.slice (d : Decoder) (size : Int) : Decoder :=
  { buffer := jsSlice d.buffer d.offset (d.offset + size), offset := 0 }

/-- forward(size): offset += size, unconditionally. -/
def Decoder.forward (d : Decoder) (size : Int) : Decoder :=
  { d with offset := d.offset + size }

/-- Modelled from the spec: the zigzag encoder that the decoder must invert,
mapping signed n to (n << 1) xor (n >> 31); the encoder itself is not part
of the repository (the decoder is decode-only). -/
def encodeZigZag (n : Int) : Int := jsXor (jsShl n 1) (jsShr n 31)

/-- Modelled from the spec: the 64-bit zigzag encoder (n << 1) xor (n >> 63)
over the Long collaborator arithmetic. -/
def encodeZigZag64 (n : Int) : Int :=
  Long.xor (Long.shiftLeft n 1) (Long.shiftRight n 63)

/-- Modelled from the spec: the readVarInt accumulation restated with every
addition truncating to 32 bits (exact fixed-width wraparound arithmetic),
the reference model the spec asks reimplementations to match. -/
def Decoder.varIntLoopWrap : List Nat → Nat → Int → Int × Nat
  | [], _, result => (result, 1)
  | b :: rest, i, result =>
    if 128 ≤ b then
      let r := Decoder.varIntLoopWrap rest (i + 7) (wrapS 32 (result + jsShl (jsAnd (b : Int) 127) i))
      (r.1, r.2 + 1)
    else (wrapS 32 (result + jsShl (jsAnd (b : Int) 127) i), 1)

/-- Modelled from the spec: readVarInt as 32-bit wraparound accumulation
followed by decodeZigZag. -/
def Decoder.readVarIntWrap (d : Decoder) : Int × Decoder :=
  let rest := if d.offset < 0 then [] else d.buffer.drop d.offset.toNat
  let r := Decoder.varIntLoopWrap rest 0 0
  (Decoder.decodeZigZag r.1, { d with offset := d.offset + (r.2 : Int) })

/-! Arithmetic facts about the wrapping helpers. -/

theorem wrapU_coe (w : Nat) (x : Int) : ((wrapU w x : Nat) : Int) = x % 2 ^ w := by
  have hpos : (0 : Int) < 2 ^ w := by positivity
  exact Int.toNat_of_nonneg (Int.emod_nonneg x (by omega))

theorem wrapU_lt (w : Nat) (x : Int) : wrapU w x < 2 ^ w := by
  have hpos : (0 : Int) < 2 ^ w := by positivity
  have h1 := Int.emod_lt_of_pos x hpos
  have h2 := wrapU_coe w x
  have h3 : ((2 ^ w : Nat) : Int) = (2 : Int) ^ w := by push_cast; ring
  omega

theorem wrapU_natCast (w : Nat) (n : Nat) (h : n < 2 ^ w) : wrapU w ((n : Nat) : Int) = n := by
  have h2 := wrapU_coe w ((n : Nat) : Int)
  have h3 : ((2 ^ w : Nat) : Int) = (2 : Int) ^ w := by push_cast; ring
  have h4 : ((n : Nat) : Int) % 2 ^ w = ((n : Nat) : Int) := by
    apply Int.emod_eq_of_lt (by omega) (by omega)
  omega

theorem wrapU_zero (w : Nat) : wrapU w 0 = 0 := by
  simp [wrapU]

theorem wrapU_neg_one (w : Nat) : wrapU w (-1) = 2 ^ w - 1 := by
  have hpos : (0 : Int) < 2 ^ w := by positivity
  have h2 := wrapU_coe w (-1)
  have h3 : ((2 ^ w : Nat) : Int) = (2 : Int) ^ w := by push_cast; ring
  have h4 : (-1 : Int) % 2 ^ w = 2 ^ w - 1 := by
    have h5 : ((-1 : Int) + 2 ^ w * 1) % 2 ^ w = (-1 : Int) % 2 ^ w :=
      Int.add_mul_emod_self_left _ _ _
    have h6 : ((-1 : Int) + 2 ^ w * 1) % 2 ^ w = (-1 : Int) + 2 ^ w * 1 :=
      Int.emod_eq_of_lt (by omega) (by omega)
    omega
  omega

theorem wrapU_wrapS (w : Nat) (x : Int) : wrapU w (wrapS w x) = wrapU w x := by
  have hlt := wrapU_lt w x
  have hco := wrapU_coe w x
  have h3 : ((2 ^ w : Nat) : Int) = (2 : Int) ^ w := by push_cast; ring
  unfold wrapS
  split
  · exact wrapU_natCast w (wrapU w x) hlt
  · have h5 : (((wrapU w x : Nat) : Int) - 2 ^ w) % 2 ^ w = ((wrapU w x : Nat) : Int) % 2 ^ w := by
      have h6 : (((wrapU w x : Nat) : Int) + 2 ^ w * (-1)) % 2 ^ w = ((wrapU w x : Nat) : Int) % 2 ^ w :=
        Int.add_mul_emod_self_left _ _ _
      have h7 : ((wrapU w x : Nat) : Int) + 2 ^ w * (-1) = ((wrapU w x : Nat) : Int) - 2 ^ w := by ring
      rw [← h7]; exact h6
    have h8 : ((wrapU w x : Nat) : Int) % 2 ^ w = ((wrapU w x : Nat) : Int) :=
      Int.emod_eq_of_lt (by omega) (by omega)
    have h9 := wrapU_coe w (((wrapU w x : Nat) : Int) - 2 ^ w)
    omega

theorem two_pow_pred (w : Nat) (hw : 0 < w) : (2 : Int) ^ w = 2 * 2 ^ (w - 1) := by
  rw [← pow_succ']
  congr 1
  omega

theorem wrapS_eq_self (w : Nat) (hw : 0 < w) {x : Int}
    (h1 : -(2 ^ (w - 1)) ≤ x) (h2 : x < 2 ^ (w - 1)) : wrapS w x = x := by
  have hpow := two_pow_pred w hw
  have hpos : (0 : Int) < 2 ^ (w - 1) := by positivity
  have h3 : ((2 ^ w : Nat) : Int) = (2 : Int) ^ w := by push_cast; ring
  have h3b : ((2 ^ (w - 1) : Nat) : Int) = (2 : Int) ^ (w - 1) := by push_cast; ring
  have hco := wrapU_coe w x
  have hmo : x % 2 ^ w = if 0 ≤ x then x else x + 2 ^ w := by
    split
    · exact Int.emod_eq_of_lt (by omega) (by omega)
    · have h5 : (x + 2 ^ w * 1) % 2 ^ w = x % 2 ^ w := Int.add_mul_emod_self_left _ _ _
      have h6 : (x + 2 ^ w * 1) % 2 ^ w = x + 2 ^ w * 1 :=
        Int.emod_eq_of_lt (by omega) (by omega)
      omega
  unfold wrapS
  split
  · omega
  · omega

theorem wrapS_bounds (w : Nat) (hw : 0 < w) (x : Int) :
    -(2 ^ (w - 1)) ≤ wrapS w x ∧ wrapS w x < 2 ^ (w - 1) := by
  have hpow := two_pow_pred w hw
  have hlt := wrapU_lt w x
  have h3 : ((2 ^ w : Nat) : Int) = (2 : Int) ^ w := by push_cast; ring
  have h3b : ((2 ^ (w - 1) : Nat) : Int) = (2 : Int) ^ (w - 1) := by push_cast; ring
  have hpos : (0 : Int) < 2 ^ (w - 1) := by positivity
  unfold wrapS
  split
  · constructor <;> omega
  · constructor <;> omega

theorem wrapS_wrapS (w : Nat) (hw : 0 < w) (x : Int) : wrapS w (wrapS w x) = wrapS w x := by
  have hb := wrapS_bounds w hw x
  exact wrapS_eq_self w hw hb.1 hb.2

theorem wrapS_natCast (w : Nat) (hw : 0 < w) (n : Nat) (h : n < 2 ^ (w - 1)) :
    wrapS w ((n : Nat) : Int) = n := by
  apply wrapS_eq_self w hw
  · have h3b : ((2 ^ (w - 1) : Nat) : Int) = (2 : Int) ^ (w - 1) := by push_cast; ring
    have hpos : (0 : Int) < 2 ^ (w - 1) := by positivity
    omega
  · have h3b : ((2 ^ (w - 1) : Nat) : Int) = (2 : Int) ^ (w - 1) := by push_cast; ring
    omega

theorem emod_eq_of_wrapU_eq {w : Nat} {a b : Int} (h : wrapU w a = wrapU w b) :
    a % 2 ^ w = b % 2 ^ w := by
  have hca := wrapU_coe w a
  have hcb := wrapU_coe w b
  omega

theorem wrapU_add_congr (w : Nat) {a b : Int} (t : Int) (h : wrapU w a = wrapU w b) :
    wrapU w (a + t) = wrapU w (b + t) := by
  unfold wrapU
  rw [Int.add_emod a t, Int.add_emod b t, emod_eq_of_wrapU_eq h]

theorem xor_two_pow_sub_one {w x : Nat} (h : x < 2 ^ w) :
    x ^^^ (2 ^ w - 1) = 2 ^ w - 1 - x := by
  have h0 : (BitVec.ofNat w x).toNat = x := by
    simp [BitVec.toNat_ofNat, Nat.mod_eq_of_lt h]
  have h2 := BitVec.toNat_not (x := BitVec.ofNat w x)
  rw [BitVec.not_def, BitVec.toNat_xor, BitVec.toNat_allOnes, h0] at h2
  rw [Nat.xor_comm]
  exact h2

/-! Arithmetic characterization of the zigzag decoders. -/

theorem wrapU_one (w : Nat) (hw : 0 < w) : wrapU w (1 : Int) = 1 := by
  have h := wrapU_natCast w 1 (Nat.one_lt_two_pow_iff.mpr (by omega))
  simpa using h


theorem jsXor_cast_zero (a : Nat) (ha : a < 2 ^ 31) : jsXor ((a : Nat) : Int) 0 = a := by
  unfold jsXor
  rw [wrapU_zero, Nat.xor_zero, wrapU_natCast 32 a (by omega)]
  exact wrapS_natCast 32 (by norm_num) a (by omega)

theorem jsXor_cast_neg_one (a : Nat) (ha : a < 2 ^ 31) :
    jsXor ((a : Nat) : Int) (-1) = -(a : Int) - 1 := by
  unfold jsXor
  rw [wrapU_neg_one, wrapU_natCast 32 a (by omega),
    xor_two_pow_sub_one (by omega : a < 2 ^ 32)]
  unfold wrapS
  rw [wrapU_natCast 32 _ (by omega : 2 ^ 32 - 1 - a < 2 ^ 32)]
  rw [if_neg (by omega : ¬ (2 ^ 32 - 1 - a < 2 ^ (32 - 1)))]
  have hcast : ((2 ^ 32 - 1 - a : Nat) : Int) = ((2 ^ 32 - 1 : Nat) : Int) - (a : Int) := by
    omega
  rw [hcast]
  have h32 : (((2 : Nat) ^ 32 : Nat) : Int) = (2 : Int) ^ 32 := by norm_cast
  omega

theorem jsShrU_one (v : Int) : jsShrU v 1 = ((wrapU 32 v / 2 : Nat) : Int) := by
  unfold jsShrU
  norm_num

theorem jsAnd_one (v : Int) : jsAnd v 1 = ((wrapU 32 v % 2 : Nat) : Int) := by
  unfold jsAnd
  rw [wrapU_one 32 (by norm_num), Nat.and_one_is_mod]
  exact wrapS_natCast 32 (by norm_num) _ (by omega)

theorem decodeZigZag_even {v : Int} (h : wrapU 32 v % 2 = 0) :
    Decoder.decodeZigZag v = ((wrapU 32 v / 2 : Nat) : Int) := by
  have hu := wrapU_lt 32 v
  unfold Decoder.decodeZigZag
  rw [jsShrU_one, jsAnd_one, h, Nat.cast_zero, neg_zero]
  exact jsXor_cast_zero _ (by omega)

theorem decodeZigZag_odd {v : Int} (h : wrapU 32 v % 2 = 1) :
    Decoder.decodeZigZag v = -((wrapU 32 v / 2 : Nat) : Int) - 1 := by
  have hu := wrapU_lt 32 v
  unfold Decoder.decodeZigZag
  rw [jsShrU_one, jsAnd_one, h, Nat.cast_one]
  exact jsXor_cast_neg_one _ (by omega)

theorem wrapS_zero (w : Nat) (hw : 0 < w) : wrapS w 0 = 0 := by
  have h := wrapS_natCast w hw 0 (by positivity)
  simpa using h

theorem longXor_cast_zero (a : Nat) (ha : a < 2 ^ 63) : Long.xor ((a : Nat) : Int) 0 = a := by
  unfold Long.xor
  rw [wrapU_zero, Nat.xor_zero, wrapU_natCast 64 a (by omega)]
  exact wrapS_natCast 64 (by norm_num) a (by omega)

theorem longXor_cast_neg_one (a : Nat) (ha : a < 2 ^ 63) :
    Long.xor ((a : Nat) : Int) (-1) = -(a : Int) - 1 := by
  unfold Long.xor
  rw [wrapU_neg_one, wrapU_natCast 64 a (by omega),
    xor_two_pow_sub_one (by omega : a < 2 ^ 64)]
  unfold wrapS
  rw [wrapU_natCast 64 _ (by omega : 2 ^ 64 - 1 - a < 2 ^ 64)]
  rw [if_neg (by omega : ¬ (2 ^ 64 - 1 - a < 2 ^ (64 - 1)))]
  have hcast : ((2 ^ 64 - 1 - a : Nat) : Int) = ((2 ^ 64 - 1 : Nat) : Int) - (a : Int) := by
    omega
  rw [hcast]
  have h64 : (((2 : Nat) ^ 64 : Nat) : Int) = (2 : Int) ^ 64 := by norm_cast
  omega

theorem longShrU_one (v : Int) :
    Long.shiftRightUnsigned v 1 = ((wrapU 64 v / 2 : Nat) : Int) := by
  have hu := wrapU_lt 64 v
  unfold Long.shiftRightUnsigned
  rw [show (1 % 64) = 1 from rfl, pow_one]
  exact wrapS_natCast 64 (by norm_num) _ (by omega)

theorem longAnd_one (v : Int) :
    Long.and v (Long.fromInt 1) = ((wrapU 64 v % 2 : Nat) : Int) := by
  have hf : Long.fromInt 1 = 1 := by
    unfold Long.fromInt
    exact wrapS_eq_self 64 (by norm_num) (by omega) (by omega)
  rw [hf]
  unfold Long.and
  rw [wrapU_one 64 (by norm_num), Nat.and_one_is_mod]
  exact wrapS_natCast 64 (by norm_num) _ (by omega)

theorem decodeZigZag64_even {v : Int} (h : wrapU 64 v % 2 = 0) :
    Decoder.decodeZigZag64 v = ((wrapU 64 v / 2 : Nat) : Int) := by
  have hu := wrapU_lt 64 v
  unfold Decoder.decodeZigZag64
  rw [longShrU_one, longAnd_one, h, Nat.cast_zero]
  have hneg : Long.negate 0 = 0 := by
    unfold Long.negate
    rw [neg_zero]
    exact wrapS_zero 64 (by norm_num)
  rw [hneg]
  exact longXor_cast_zero _ (by omega)

theorem decodeZigZag64_odd {v : Int} (h : wrapU 64 v % 2 = 1) :
    Decoder.decodeZigZag64 v = -((wrapU 64 v / 2 : Nat) : Int) - 1 := by
  have hu := wrapU_lt 64 v
  unfold Decoder.decodeZigZag64
  rw [longShrU_one, longAnd_one, h, Nat.cast_one]
  have hneg : Long.negate 1 = -1 := by
    unfold Long.negate
    exact wrapS_eq_self 64 (by norm_num) (by omega) (by omega)
  rw [hneg]
  exact longXor_cast_neg_one _ (by omega)

/-! Round-trip of the zigzag transform. -/

theorem wrapU_cast_self (w : Nat) (x : Int) :
    wrapU w ((wrapU w x : Nat) : Int) = wrapU w x :=
  wrapU_natCast w _ (wrapU_lt w x)

theorem wrapU_congr {w : Nat} {a b : Int} (h : a % 2 ^ w = b % 2 ^ w) :
    wrapU w a = wrapU w b := by
  unfold wrapU
  rw [h]

theorem wrapS_congr {w : Nat} {a b : Int} (h : a % 2 ^ w = b % 2 ^ w) :
    wrapS w a = wrapS w b := by
  unfold wrapS
  rw [wrapU_congr h]

theorem jsXor_zero_right (x : Int) :
    jsXor x 0 = wrapS 32 ((wrapU 32 x : Nat) : Int) := by
  unfold jsXor
  rw [wrapU_zero, Nat.xor_zero]

theorem jsXor_neg_one_right (x : Int) :
    jsXor x (-1) = wrapS 32 ((2 ^ 32 - 1 - wrapU 32 x : Nat) : Int) := by
  unfold jsXor
  rw [wrapU_neg_one, xor_two_pow_sub_one (wrapU_lt 32 x)]

theorem longXor_zero_right (x : Int) :
    Long.xor x 0 = wrapS 64 ((wrapU 64 x : Nat) : Int) := by
  unfold Long.xor
  rw [wrapU_zero, Nat.xor_zero]

theorem longXor_neg_one_right (x : Int) :
    Long.xor x (-1) = wrapS 64 ((2 ^ 64 - 1 - wrapU 64 x : Nat) : Int) := by
  unfold Long.xor
  rw [wrapU_neg_one, xor_two_pow_sub_one (wrapU_lt 64 x)]

theorem zigzag_rt32 (n : Int) (h1 : -(2 ^ 31) ≤ n) (h2 : n < 2 ^ 31) :
    Decoder.decodeZigZag (encodeZigZag n) = n := by
  have hn32 : wrapS 32 n = n := wrapS_eq_self 32 (by norm_num) (by omega) (by omega)
  have hshl : jsShl n 1 = wrapS 32 (n * 2) := by
    unfold jsShl
    rw [show (1 % 32) = 1 from rfl, pow_one]
    apply wrapS_congr
    rw [wrapU_coe]
    rw [Int.mul_emod, Int.mul_emod n 2, Int.emod_emod_of_dvd _ dvd_rfl]
  rcases le_or_lt 0 n with hn | hn
  · have hshr : jsShr n 31 = 0 := by
      unfold jsShr
      rw [hn32, show (31 % 32) = 31 from rfl]
      omega
    have henc : encodeZigZag n = wrapS 32 ((wrapU 32 (n * 2) : Nat) : Int) := by
      unfold encodeZigZag
      rw [hshl, hshr, jsXor_zero_right, wrapU_wrapS]
    have hu : wrapU 32 (encodeZigZag n) = wrapU 32 (n * 2) := by
      rw [henc, wrapU_wrapS, wrapU_cast_self]
    have hval : ((wrapU 32 (n * 2) : Nat) : Int) = n * 2 := by
      rw [wrapU_coe]
      omega
    have hpar : wrapU 32 (encodeZigZag n) % 2 = 0 := by omega
    rw [decodeZigZag_even hpar, hu]
    omega
  · have hshr : jsShr n 31 = -1 := by
      unfold jsShr
      rw [hn32, show (31 % 32) = 31 from rfl]
      omega
    have henc : encodeZigZag n = wrapS 32 ((2 ^ 32 - 1 - wrapU 32 (n * 2) : Nat) : Int) := by
      unfold encodeZigZag
      rw [hshl, hshr, jsXor_neg_one_right, wrapU_wrapS]
    have hu : wrapU 32 (encodeZigZag n) = 2 ^ 32 - 1 - wrapU 32 (n * 2) := by
      rw [henc, wrapU_wrapS]
      exact wrapU_natCast 32 (2 ^ 32 - 1 - wrapU 32 (n * 2)) (by omega)
    have hval : ((wrapU 32 (n * 2) : Nat) : Int) = n * 2 + 2 ^ 32 := by
      rw [wrapU_coe]
      omega
    have hpar : wrapU 32 (encodeZigZag n) % 2 = 1 := by omega
    rw [decodeZigZag_odd hpar, hu]
    omega

theorem zigzag_rt64 (n : Int) (h1 : -(2 ^ 63) ≤ n) (h2 : n < 2 ^ 63) :
    Decoder.decodeZigZag64 (encodeZigZag64 n) = n := by
  have hn64 : wrapS 64 n = n := wrapS_eq_self 64 (by norm_num) (by omega) (by omega)
  have hshl : Long.shiftLeft n 1 = wrapS 64 (n * 2) := by
    unfold Long.shiftLeft
    rw [show (1 % 64) = 1 from rfl, pow_one]
    apply wrapS_congr
    rw [wrapU_coe]
    rw [Int.mul_emod, Int.mul_emod n 2, Int.emod_emod_of_dvd _ dvd_rfl]
  rcases le_or_lt 0 n with hn | hn
  · have hshr : Long.shiftRight n 63 = 0 := by
      unfold Long.shiftRight
      rw [hn64, show (63 % 64) = 63 from rfl]
      omega
    have henc : encodeZigZag64 n = wrapS 64 ((wrapU 64 (n * 2) : Nat) : Int) := by
      unfold encodeZigZag64
      rw [hshl, hshr, longXor_zero_right, wrapU_wrapS]
    have hu : wrapU 64 (encodeZigZag64 n) = wrapU 64 (n * 2) := by
      rw [henc, wrapU_wrapS, wrapU_cast_self]
    have hval : ((wrapU 64 (n * 2) : Nat) : Int) = n * 2 := by
      rw [wrapU_coe]
      omega
    have hpar : wrapU 64 (encodeZigZag64 n) % 2 = 0 := by omega
    rw [decodeZigZag64_even hpar, hu]
    omega
  · have hshr : Long.shiftRight n 63 = -1 := by
      unfold Long.shiftRight
      rw [hn64, show (63 % 64) = 63 from rfl]
      omega
    have henc : encodeZigZag64 n = wrapS 64 ((2 ^ 64 - 1 - wrapU 64 (n * 2) : Nat) : Int) := by
      unfold encodeZigZag64
      rw [hshl, hshr, longXor_neg_one_right, wrapU_wrapS]
    have hu : wrapU 64 (encodeZigZag64 n) = 2 ^ 64 - 1 - wrapU 64 (n * 2) := by
      rw [henc, wrapU_wrapS]
      exact wrapU_natCast 64 (2 ^ 64 - 1 - wrapU 64 (n * 2)) (by omega)
    have hval : ((wrapU 64 (n * 2) : Nat) : Int) = n * 2 + 2 ^ 64 := by
      rw [wrapU_coe]
      omega
    have hpar : wrapU 64 (encodeZigZag64 n) % 2 = 1 := by omega
    rw [decodeZigZag64_odd hpar, hu]
    omega

/-- C4: for every 32-bit signed integer n, decodeZigZag applied to the zigzag
encoding of n (the mapping of signed n to (n << 1) xor (n >> 31)) returns n,
and for every 64-bit signed integer n, decodeZigZag64 applied to the 64-bit
zigzag encoding ((n << 1) xor (n >> 63)) returns n. -/
theorem decodeZigZag_roundtrip :
    (∀ n : Int, -(2 ^ 31) ≤ n → n < 2 ^ 31 →
      Decoder.decodeZigZag (encodeZigZag n) = n) ∧
    (∀ n : Int, -(2 ^ 63) ≤ n → n < 2 ^ 63 →
      Decoder.decodeZigZag64 (encodeZigZag64 n) = n) :=
  ⟨fun n h1 h2 => zigzag_rt32 n h1 h2, fun n h1 h2 => zigzag_rt64 n h1 h2⟩

/-- Witness for C4 at concrete inputs, including the extreme negative values. -/
theorem decodeZigZag_roundtrip_witness :
    Decoder.decodeZigZag (encodeZigZag (-2147483648)) = -2147483648 ∧
    Decoder.decodeZigZag (encodeZigZag 2147483647) = 2147483647 ∧
    Decoder.decodeZigZag64 (encodeZigZag64 (-9223372036854775808)) = -9223372036854775808 ∧
    Decoder.decodeZigZag64 (encodeZigZag64 9223372036854775807) = 9223372036854775807 :=
  ⟨decodeZigZag_roundtrip.1 (-2147483648) (by decide) (by decide),
   decodeZigZag_roundtrip.1 2147483647 (by decide) (by decide),
   decodeZigZag_roundtrip.2 (-9223372036854775808) (by decide) (by decide),
   decodeZigZag_roundtrip.2 9223372036854775807 (by decide) (by decide)⟩

/-- C6: readVarInt on the bytes 0x96 0x01 returns 75 advancing the offset by
2, and on the single byte 0x01 returns -1 advancing the offset by 1. -/
theorem readVarInt_examples :
    Decoder.readVarInt { buffer := [0x96, 0x01], offset := 0 } =
      (75, { buffer := [0x96, 0x01], offset := 2 }) ∧
    Decoder.readVarInt { buffer := [0x01], offset := 0 } =
      (-1, { buffer := [0x01], offset := 1 }) := by
  exact ⟨by decide, by decide⟩

/-! Equivalence of the exact-integer varint accumulation with the 32-bit
wraparound accumulation model. -/

theorem varIntLoop_wrap_congr (rest : List Nat) (i : Nat) (a b : Int)
    (h : wrapU 32 a = wrapU 32 b) :
    wrapU 32 (Decoder.varIntLoop rest i a).1 = wrapU 32 (Decoder.varIntLoopWrap rest i b).1 ∧
    (Decoder.varIntLoop rest i a).2 = (Decoder.varIntLoopWrap rest i b).2 := by
  induction rest generalizing i a b with
  | nil =>
    simp only [Decoder.varIntLoop, Decoder.varIntLoopWrap]
    exact ⟨h, trivial⟩
  | cons c rest ih =>
    by_cases hc : 128 ≤ c
    · simp only [Decoder.varIntLoop, Decoder.varIntLoopWrap, if_pos hc]
      have hnext : wrapU 32 (a + jsShl (jsAnd (c : Int) 127) i) =
          wrapU 32 (wrapS 32 (b + jsShl (jsAnd (c : Int) 127) i)) := by
        rw [wrapU_wrapS]
        exact wrapU_add_congr 32 _ h
      have hr := ih (i + 7) _ _ hnext
      exact ⟨hr.1, by rw [hr.2]⟩
    · simp only [Decoder.varIntLoop, Decoder.varIntLoopWrap, if_neg hc]
      exact ⟨by rw [wrapU_wrapS]; exact wrapU_add_congr 32 _ h, trivial⟩

theorem decodeZigZag_wrapU_congr {a b : Int} (h : wrapU 32 a = wrapU 32 b) :
    Decoder.decodeZigZag a = Decoder.decodeZigZag b := by
  unfold Decoder.decodeZigZag
  rw [jsShrU_one a, jsShrU_one b, jsAnd_one a, jsAnd_one b, h]

/-- C5: readVarInt computes exactly the value of the accumulation loop
performed in 32-bit fixed-width wraparound arithmetic followed by
decodeZigZag, on every buffer and offset, consuming the same bytes. -/
theorem readVarInt_eq_wrapModel (d : Decoder) : d.readVarInt = d.readVarIntWrap := by
  unfold Decoder.readVarInt Decoder.readVarIntWrap
  dsimp only
  have h := varIntLoop_wrap_congr
    (if d.offset < 0 then [] else d.buffer.drop d.offset.toNat) 0 0 0 rfl
  have h1 := decodeZigZag_wrapU_congr h.1
  rw [h1, h.2]

/-! Behavior of the varint loops when the loop runs off the end of the
buffer: the out-of-bounds access behaves exactly like a terminating 0x00
byte contributing no payload bits. -/

theorem jsAnd_zero_left : jsAnd 0 127 = 0 := by
  unfold jsAnd
  rw [wrapU_zero, Nat.zero_and, Nat.cast_zero]
  exact wrapS_zero 32 (by norm_num)

theorem jsShl_zero_left (i : Nat) : jsShl 0 i = 0 := by
  unfold jsShl
  rw [wrapU_zero, Nat.cast_zero, zero_mul]
  exact wrapS_zero 32 (by norm_num)

theorem varIntLoop_append_zero (rest : List Nat) (i : Nat) (a : Int)
    (h : ∀ b ∈ rest, 128 ≤ b) :
    Decoder.varIntLoop (rest ++ [0]) i a = Decoder.varIntLoop rest i a := by
  induction rest generalizing i a with
  | nil =>
    simp only [List.nil_append, Decoder.varIntLoop]
    rw [if_neg (by norm_num)]
    rw [show ((0 : Nat) : Int) = (0 : Int) from rfl, jsAnd_zero_left, jsShl_zero_left, add_zero]
  | cons c rest ih =>
    have hc : 128 ≤ c := h c (by simp)
    simp only [List.cons_append, Decoder.varIntLoop, List.append_eq, if_pos hc]
    rw [ih (i + 7) _ (fun b hb => h b (List.mem_cons_of_mem _ hb))]

theorem varIntLoop_count_all_cont (rest : List Nat) (i : Nat) (a : Int)
    (h : ∀ b ∈ rest, 128 ≤ b) :
    (Decoder.varIntLoop rest i a).2 = rest.length + 1 := by
  induction rest generalizing i a with
  | nil => rfl
  | cons c rest ih =>
    have hc : 128 ≤ c := h c (by simp)
    simp only [Decoder.varIntLoop, if_pos hc]
    rw [ih (i + 7) _ (fun b hb => h b (List.mem_cons_of_mem _ hb))]
    simp

theorem longStep_zero (a : Int) (i : Nat) (ha : wrapS 64 a = a) :
    Long.add a (Long.shiftLeft (Long.fromInt (jsAnd 0 127)) i) = a := by
  rw [jsAnd_zero_left]
  have hf : Long.fromInt 0 = 0 := by
    unfold Long.fromInt
    exact wrapS_zero 64 (by norm_num)
  rw [hf]
  have hs : Long.shiftLeft 0 i = 0 := by
    unfold Long.shiftLeft
    rw [wrapU_zero, Nat.cast_zero, zero_mul]
    exact wrapS_zero 64 (by norm_num)
  rw [hs]
  unfold Long.add
  rw [add_zero, ha]

theorem longStep_wrapS (a t : Int) : wrapS 64 (Long.add a t) = Long.add a t := by
  unfold Long.add
  exact wrapS_wrapS 64 (by norm_num) _

theorem varLongLoop_append_zero (rest : List Nat) (i : Nat) (a : Int)
    (ha : wrapS 64 a = a) (h : ∀ b ∈ rest, 128 ≤ b) :
    Decoder.varLongLoop (rest ++ [0]) i a = Decoder.varLongLoop rest i a := by
  induction rest generalizing i a with
  | nil =>
    simp only [List.nil_append, Decoder.varLongLoop]
    rw [if_neg (by norm_num)]
    rw [show ((0 : Nat) : Int) = (0 : Int) from rfl, longStep_zero a i ha]
  | cons c rest ih =>
    have hc : 128 ≤ c := h c (by simp)
    simp only [List.cons_append, Decoder.varLongLoop, List.append_eq, if_pos hc]
    rw [ih (i + 7) _ (longStep_wrapS _ _) (fun b hb => h b (List.mem_cons_of_mem _ hb))]

theorem varLongLoop_count_all_cont (rest : List Nat) (i : Nat) (a : Int)
    (h : ∀ b ∈ rest, 128 ≤ b) :
    (Decoder.varLongLoop rest i a).2 = rest.length + 1 := by
  induction rest generalizing i a with
  | nil => rfl
  | cons c rest ih =>
    have hc : 128 ≤ c := h c (by simp)
    simp only [Decoder.varLongLoop, if_pos hc]
    rw [ih (i + 7) _ (fun b hb => h b (List.mem_cons_of_mem _ hb))]
    simp

/-- C10: readVarInt and readVarLong never signal a buffer underrun when the
remaining bytes are too few for the encoding (in this embedding they are
total functions); when every remaining byte has the continuation bit set
(including the empty remainder), the out-of-bounds access acts as a
terminating byte contributing zero payload bits, so the decoded value equals
the one obtained with a 0x00 byte appended, and the final offset is
length(buffer) + 1, past the end of the buffer. -/
theorem varint_reads_no_underrun (d : Decoder) (h0 : 0 ≤ d.offset)
    (h1 : d.offset ≤ (d.buffer.length : Int))
    (hc : ∀ b ∈ d.buffer.drop d.offset.toNat, 128 ≤ b) :
    (d.readVarInt).1 = (Decoder.readVarInt { buffer := d.buffer ++ [0], offset := d.offset }).1 ∧
    (d.readVarInt).2.offset = (d.buffer.length : Int) + 1 ∧
    (d.buffer.length : Int) < (d.readVarInt).2.offset ∧
    (d.readVarLong).1 = (Decoder.readVarLong { buffer := d.buffer ++ [0], offset := d.offset }).1 ∧
    (d.readVarLong).2.offset = (d.buffer.length : Int) + 1 ∧
    (d.buffer.length : Int) < (d.readVarLong).2.offset := by
  have hneg : ¬ d.offset < 0 := by omega
  have hlen : d.offset.toNat ≤ d.buffer.length := by omega
  have hdrop : (d.buffer ++ [0]).drop d.offset.toNat = d.buffer.drop d.offset.toNat ++ [0] :=
    List.drop_append_of_le_length hlen
  have hfrom0 : wrapS 64 (Long.fromInt 0) = Long.fromInt 0 := by
    unfold Long.fromInt
    exact wrapS_wrapS 64 (by norm_num) 0
  have hcount := varIntLoop_count_all_cont (d.buffer.drop d.offset.toNat) 0 0 hc
  have hcountL := varLongLoop_count_all_cont (d.buffer.drop d.offset.toNat) 0 (Long.fromInt 0) hc
  have hlendrop : (d.buffer.drop d.offset.toNat).length = d.buffer.length - d.offset.toNat :=
    List.length_drop _ _
  unfold Decoder.readVarInt Decoder.readVarLong
  dsimp only
  simp only [if_neg hneg, hdrop]
  rw [varIntLoop_append_zero _ 0 0 hc, varLongLoop_append_zero _ 0 (Long.fromInt 0) hfrom0 hc]
  refine ⟨rfl, ?_, ?_, rfl, ?_, ?_⟩
  · show d.offset + ((Decoder.varIntLoop (d.buffer.drop d.offset.toNat) 0 0).2 : Int) =
      (d.buffer.length : Int) + 1
    omega
  · show (d.buffer.length : Int) <
      d.offset + ((Decoder.varIntLoop (d.buffer.drop d.offset.toNat) 0 0).2 : Int)
    omega
  · show d.offset +
      ((Decoder.varLongLoop (d.buffer.drop d.offset.toNat) 0 (Long.fromInt 0)).2 : Int) =
      (d.buffer.length : Int) + 1
    omega
  · show (d.buffer.length : Int) <
      d.offset + ((Decoder.varLongLoop (d.buffer.drop d.offset.toNat) 0 (Long.fromInt 0)).2 : Int)
    omega

/-- Witness for C10: a two-byte buffer both of whose bytes have the
continuation bit set. -/
theorem varint_reads_no_underrun_witness :
    (Decoder.readVarInt { buffer := [128, 255], offset := 0 }).1 =
      (Decoder.readVarInt { buffer := [128, 255] ++ [0], offset := 0 }).1 ∧
    (Decoder.readVarInt { buffer := [128, 255], offset := 0 }).2.offset =
      (([128, 255] : List Nat).length : Int) + 1 ∧
    (([128, 255] : List Nat).length : Int) <
      (Decoder.readVarInt { buffer := [128, 255], offset := 0 }).2.offset ∧
    (Decoder.readVarLong { buffer := [128, 255], offset := 0 }).1 =
      (Decoder.readVarLong { buffer := [128, 255] ++ [0], offset := 0 }).1 ∧
    (Decoder.readVarLong { buffer := [128, 255], offset := 0 }).2.offset =
      (([128, 255] : List Nat).length : Int) + 1 ∧
    (([128, 255] : List Nat).length : Int) <
      (Decoder.readVarLong { buffer := [128, 255], offset := 0 }).2.offset :=
  varint_reads_no_underrun { buffer := [128, 255], offset := 0 }
    (by decide) (by decide) (by decide)

/-! Slice arithmetic on in-bounds starts. -/

theorem jsSlice_to_end (buf : List Nat) (off : Int) (h0 : 0 ≤ off)
    (h1 : off ≤ (buf.length : Int)) :
    jsSlice buf off (buf.length : Int) = buf.drop off.toNat := by
  unfold jsSlice
  dsimp only
  rw [if_neg (by omega), if_neg (by omega)]
  rw [show max 0 (min (buf.length : Int) off) = off from by omega]
  rw [show max 0 (min (buf.length : Int) (buf.length : Int)) = (buf.length : Int) from by omega]
  rw [show ((buf.length : Int)).toNat = buf.length from by omega, List.take_length]

theorem jsSlice_drop_take (buf : List Nat) (off n : Int) (h0 : 0 ≤ off)
    (h1 : off ≤ (buf.length : Int)) (h2 : 0 ≤ n) :
    jsSlice buf off (off + n) = (buf.drop off.toNat).take n.toNat := by
  unfold jsSlice
  dsimp only
  rw [if_neg (by omega), if_neg (by omega)]
  rw [show max 0 (min (buf.length : Int) off) = off from by omega]
  rcases le_or_lt (off + n) (buf.length : Int) with hle | hlt
  · rw [show max 0 (min (buf.length : Int) (off + n)) = off + n from by omega]
    rw [List.take_drop]
    rw [show (off + n).toNat = off.toNat + n.toNat from by omega]
  · rw [show max 0 (min (buf.length : Int) (off + n)) = (buf.length : Int) from by omega]
    rw [show ((buf.length : Int)).toNat = buf.length from by omega, List.take_length]
    rw [List.take_of_length_le (by rw [List.length_drop]; omega)]

/-- C9: readAll returns the bytes from the current offset to the end of the
buffer, and advances the cursor by the total buffer length, so the new
offset is the old offset plus length(buffer), which exceeds length(buffer)
whenever the old offset was positive. -/
theorem readAll_returns_rest_overadvances (d : Decoder) (h0 : 0 ≤ d.offset)
    (h1 : d.offset ≤ (d.buffer.length : Int)) :
    d.readAll = (d.buffer.drop d.offset.toNat,
      { buffer := d.buffer, offset := d.offset + (d.buffer.length : Int) }) ∧
    (0 < d.offset → (d.buffer.length : Int) < (d.readAll).2.offset) := by
  constructor
  · unfold Decoder.readAll
    rw [jsSlice_to_end d.buffer d.offset h0 h1]
  · intro h
    show (d.buffer.length : Int) < d.offset + (d.buffer.length : Int)
    omega

/-- Witness for C9 on a three-byte buffer with one byte already read. -/
theorem readAll_returns_rest_overadvances_witness :
    Decoder.readAll { buffer := [7, 8, 9], offset := 1 } =
      (([7, 8, 9] : List Nat).drop ((1 : Int)).toNat,
        { buffer := [7, 8, 9], offset := (1 : Int) + (([7, 8, 9] : List Nat).length : Int) }) ∧
    ((0 : Int) < 1 → ((([7, 8, 9] : List Nat).length : Int) <
      (Decoder.readAll { buffer := [7, 8, 9], offset := 1 }).2.offset)) :=
  readAll_returns_rest_overadvances { buffer := [7, 8, 9], offset := 1 } (by decide) (by decide)

/-- C7: readString on the prefix bytes 0xFF 0xFF (int16 value -1) returns
the null sentinel, not an empty string, and advances the offset by exactly
2 bytes, consuming no payload. -/
theorem readString_null_sentinel (d : Decoder)
    (h : bytesAt d.buffer d.offset 2 = some [255, 255]) :
    d.readString = some (none, { buffer := d.buffer, offset := d.offset + 2 }) := by
  have h16 : d.readInt16 = some (-1, { buffer := d.buffer, offset := d.offset + 2 }) := by
    unfold Decoder.readInt16
    rw [h]
    show some (wrapS 16 ((beNat [255, 255] : Nat) : Int),
      ({ buffer := d.buffer, offset := d.offset + 2 } : Decoder)) =
      some (-1, ({ buffer := d.buffer, offset := d.offset + 2 } : Decoder))
    rw [show wrapS 16 ((beNat [255, 255] : Nat) : Int) = -1 from by decide]
  unfold Decoder.readString
  rw [h16]
  simp

/-- Witness for C7: a buffer whose next two bytes are the -1 prefix followed
by an unread payload byte. -/
theorem readString_null_sentinel_witness :
    Decoder.readString { buffer := [255, 255, 7], offset := 0 } =
      some (none, { buffer := [255, 255, 7], offset := (0 : Int) + 2 }) :=
  readString_null_sentinel { buffer := [255, 255, 7], offset := 0 } (by decide)

/-- C8: on a -1 length prefix (bytes 0xFF 0xFF 0xFF 0xFF), readArray returns
an empty ordered sequence, not the null sentinel, while readBytes returns
the null sentinel, not an empty sequence; the two behaviors are distinct
results for the same prefix. -/
theorem readArray_empty_readBytes_null {α : Type} (reader : Decoder → Option (α × Decoder))
    (d : Decoder) (h : bytesAt d.buffer d.offset 4 = some [255, 255, 255, 255]) :
    d.readArray reader = some (([] : List α), { buffer := d.buffer, offset := d.offset + 4 }) ∧
    d.readBytes = some (none, { buffer := d.buffer, offset := d.offset + 4 }) := by
  have h32 : d.readInt32 = some (-1, { buffer := d.buffer, offset := d.offset + 4 }) := by
    unfold Decoder.readInt32
    rw [h]
    show some (wrapS 32 ((beNat [255, 255, 255, 255] : Nat) : Int),
      ({ buffer := d.buffer, offset := d.offset + 4 } : Decoder)) =
      some (-1, ({ buffer := d.buffer, offset := d.offset + 4 } : Decoder))
    rw [show wrapS 32 ((beNat [255, 255, 255, 255] : Nat) : Int) = -1 from by decide]
  constructor
  · unfold Decoder.readArray
    rw [h32]
    simp
  · unfold Decoder.readBytes
    rw [h32]
    simp

/-- Witness for C8 on the concrete four-byte -1 prefix. -/
theorem readArray_empty_readBytes_null_witness :
    Decoder.readArray { buffer := [255, 255, 255, 255], offset := 0 }
        (fun _ => (none : Option (Unit × Decoder))) =
      some (([] : List Unit), { buffer := [255, 255, 255, 255], offset := (0 : Int) + 4 }) ∧
    Decoder.readBytes { buffer := [255, 255, 255, 255], offset := 0 } =
      some (none, { buffer := [255, 255, 255, 255], offset := (0 : Int) + 4 }) :=
  readArray_empty_readBytes_null (fun _ => (none : Option (Unit × Decoder)))
    { buffer := [255, 255, 255, 255], offset := 0 } (by decide)

/-! Bounds failures of the fixed-width readers, and silent truncation of the
length-prefixed payload readers. -/

theorem bytesAt_none (buf : List Nat) (off : Int) (w : Nat)
    (h : (buf.length : Int) < off + w) : bytesAt buf off w = none := by
  unfold bytesAt
  rw [if_neg (by omega)]

theorem readInt8_underrun (d : Decoder) (h : (d.buffer.length : Int) < d.offset + 1) :
    d.readInt8 = none := by
  unfold Decoder.readInt8
  rw [bytesAt_none d.buffer d.offset 1 (by omega)]

theorem readInt16_underrun (d : Decoder) (h : (d.buffer.length : Int) < d.offset + 2) :
    d.readInt16 = none := by
  unfold Decoder.readInt16
  rw [bytesAt_none d.buffer d.offset 2 (by omega)]

theorem readInt32_underrun (d : Decoder) (h : (d.buffer.length : Int) < d.offset + 4) :
    d.readInt32 = none := by
  unfold Decoder.readInt32
  rw [bytesAt_none d.buffer d.offset 4 (by omega)]

theorem readInt64_underrun (d : Decoder) (h : (d.buffer.length : Int) < d.offset + 8) :
    d.readInt64 = none := by
  unfold Decoder.readInt64 Decoder.readBigInt64BE
  rw [bytesAt_none d.buffer d.offset 8 (by omega)]

theorem readInt16_inv {d : Decoder} {n : Int} {d1 : Decoder}
    (h : d.readInt16 = some (n, d1)) :
    d1.buffer = d.buffer ∧ d1.offset = d.offset + 2 ∧ 0 ≤ d.offset ∧
    d.offset + 2 ≤ (d.buffer.length : Int) := by
  unfold Decoder.readInt16 at h
  cases hb : bytesAt d.buffer d.offset 2 with
  | none =>
    rw [hb] at h
    exact Option.noConfusion h
  | some bs =>
    rw [hb] at h
    have hp := Option.some.inj h
    have hd1 : d1 = ({ buffer := d.buffer, offset := d.offset + 2 } : Decoder) :=
      (congrArg Prod.snd hp).symm
    have hc : 0 ≤ d.offset ∧ d.offset + ((2 : Nat) : Int) ≤ (d.buffer.length : Int) := by
      by_contra hcc
      unfold bytesAt at hb
      rw [if_neg hcc] at hb
      exact Option.noConfusion hb
    subst hd1
    exact ⟨rfl, rfl, hc.1, by have := hc.2; omega⟩

theorem readInt32_inv {d : Decoder} {n : Int} {d1 : Decoder}
    (h : d.readInt32 = some (n, d1)) :
    d1.buffer = d.buffer ∧ d1.offset = d.offset + 4 ∧ 0 ≤ d.offset ∧
    d.offset + 4 ≤ (d.buffer.length : Int) := by
  unfold Decoder.readInt32 at h
  cases hb : bytesAt d.buffer d.offset 4 with
  | none =>
    rw [hb] at h
    exact Option.noConfusion h
  | some bs =>
    rw [hb] at h
    have hp := Option.some.inj h
    have hd1 : d1 = ({ buffer := d.buffer, offset := d.offset + 4 } : Decoder) :=
      (congrArg Prod.snd hp).symm
    have hc : 0 ≤ d.offset ∧ d.offset + ((4 : Nat) : Int) ≤ (d.buffer.length : Int) := by
      by_contra hcc
      unfold bytesAt at hb
      rw [if_neg hcc] at hb
      exact Option.noConfusion hb
    subst hd1
    exact ⟨rfl, rfl, hc.1, by have := hc.2; omega⟩

theorem readString_truncates {d : Decoder} {n : Int} {d1 : Decoder}
    (h16 : d.readInt16 = some (n, d1)) (hn : 0 ≤ n)
    (hov : (d.buffer.length : Int) < d1.offset + n) :
    d.readString = some (some (d1.buffer.drop d1.offset.toNat),
      { buffer := d.buffer, offset := d1.offset + n }) ∧
    ((d1.buffer.drop d1.offset.toNat).length : Int) < n := by
  obtain ⟨hb, ho, hge, hle⟩ := readInt16_inv h16
  constructor
  · unfold Decoder.readString
    rw [h16]
    show (if n = -1 then some (none, d1)
      else some (some (jsSlice d1.buffer d1.offset (d1.offset + n)),
        ({ buffer := d1.buffer, offset := d1.offset + n } : Decoder))) =
      some (some (d1.buffer.drop d1.offset.toNat),
        ({ buffer := d.buffer, offset := d1.offset + n } : Decoder))
    rw [if_neg (by omega : ¬ n = -1)]
    rw [jsSlice_drop_take d1.buffer d1.offset n (by omega) (by rw [hb]; omega) hn]
    rw [List.take_of_length_le (by rw [List.length_drop, hb]; omega)]
    rw [hb]
  · rw [List.length_drop, hb]
    omega

theorem readBytes_truncates {d : Decoder} {n : Int} {d1 : Decoder}
    (h32 : d.readInt32 = some (n, d1)) (hn : 0 ≤ n)
    (hov : (d.buffer.length : Int) < d1.offset + n) :
    d.readBytes = some (some (d1.buffer.drop d1.offset.toNat),
      { buffer := d.buffer, offset := d1.offset + n }) ∧
    ((d1.buffer.drop d1.offset.toNat).length : Int) < n := by
  obtain ⟨hb, ho, hge, hle⟩ := readInt32_inv h32
  constructor
  · unfold Decoder.readBytes
    rw [h32]
    show (if n = -1 then some (none, d1)
      else some (some (jsSlice d1.buffer d1.offset (d1.offset + n)),
        ({ buffer := d1.buffer, offset := d1.offset + n } : Decoder))) =
      some (some (d1.buffer.drop d1.offset.toNat),
        ({ buffer := d.buffer, offset := d1.offset + n } : Decoder))
    rw [if_neg (by omega : ¬ n = -1)]
    rw [jsSlice_drop_take d1.buffer d1.offset n (by omega) (by rw [hb]; omega) hn]
    rw [List.take_of_length_le (by rw [List.length_drop, hb]; omega)]
    rw [hb]
  · rw [List.length_drop, hb]
    omega

/-- Counterexample to C1 as stated: readString whose decoded non-negative
length 5 exceeds the 0 remaining bytes does not fail with a buffer-underrun
error; it succeeds with a truncated (empty) payload and overshoots the
offset, and prefix readBytes does the same. -/
theorem payload_truncation_counterexample :
    Decoder.readString { buffer := [0, 5], offset := 0 } =
      some (some [], { buffer := [0, 5], offset := 7 }) ∧
    Decoder.readBytes { buffer := [0, 0, 0, 5], offset := 0 } =
      some (some [], { buffer := [0, 0, 0, 5], offset := 9 }) :=
  ⟨by decide, by decide⟩

/-- C1 (amended): each fixed-width read (readInt8/16/32/64) fails with a
bounds error when it requires more bytes than remain, returning no value;
but the length-prefixed reads readString and readBytes do not bounds-check
their payload: when the non-negative decoded length exceeds the remaining
bytes they succeed, returning the silently truncated remaining bytes
(strictly fewer than the declared length) and advancing the offset past the
end of the buffer. -/
theorem fixed_reads_underrun_payload_reads_truncate :
    (∀ d : Decoder, (d.buffer.length : Int) < d.offset + 1 → d.readInt8 = none) ∧
    (∀ d : Decoder, (d.buffer.length : Int) < d.offset + 2 → d.readInt16 = none) ∧
    (∀ d : Decoder, (d.buffer.length : Int) < d.offset + 4 → d.readInt32 = none) ∧
    (∀ d : Decoder, (d.buffer.length : Int) < d.offset + 8 → d.readInt64 = none) ∧
    (∀ (d : Decoder) (n : Int) (d1 : Decoder), d.readInt16 = some (n, d1) → 0 ≤ n →
      (d.buffer.length : Int) < d1.offset + n →
      d.readString = some (some (d1.buffer.drop d1.offset.toNat),
        { buffer := d.buffer, offset := d1.offset + n }) ∧
      ((d1.buffer.drop d1.offset.toNat).length : Int) < n) ∧
    (∀ (d : Decoder) (n : Int) (d1 : Decoder), d.readInt32 = some (n, d1) → 0 ≤ n →
      (d.buffer.length : Int) < d1.offset + n →
      d.readBytes = some (some (d1.buffer.drop d1.offset.toNat),
        { buffer := d.buffer, offset := d1.offset + n }) ∧
      ((d1.buffer.drop d1.offset.toNat).length : Int) < n) :=
  ⟨readInt8_underrun, readInt16_underrun, readInt32_underrun, readInt64_underrun,
   fun _ _ _ h16 hn hov => readString_truncates h16 hn hov,
   fun _ _ _ h32 hn hov => readBytes_truncates h32 hn hov⟩

/-- Witness for the amended C1, on concrete undersized buffers. -/
theorem fixed_reads_underrun_payload_reads_truncate_witness :
    Decoder.readInt8 { buffer := [], offset := 0 } = none ∧
    Decoder.readInt16 { buffer := [1], offset := 0 } = none ∧
    Decoder.readInt32 { buffer := [1, 2], offset := 0 } = none ∧
    Decoder.readInt64 { buffer := [1, 2, 3], offset := 0 } = none ∧
    (Decoder.readString { buffer := [0, 5], offset := 0 } =
      some (some (([0, 5] : List Nat).drop ((2 : Int)).toNat),
        { buffer := [0, 5], offset := (2 : Int) + 5 }) ∧
      (((([0, 5] : List Nat).drop ((2 : Int)).toNat)).length : Int) < 5) ∧
    (Decoder.readBytes { buffer := [0, 0, 0, 5], offset := 0 } =
      some (some (([0, 0, 0, 5] : List Nat).drop ((4 : Int)).toNat),
        { buffer := [0, 0, 0, 5], offset := (4 : Int) + 5 }) ∧
      (((([0, 0, 0, 5] : List Nat).drop ((4 : Int)).toNat)).length : Int) < 5) :=
  ⟨fixed_reads_underrun_payload_reads_truncate.1 _ (by decide),
   fixed_reads_underrun_payload_reads_truncate.2.1 _ (by decide),
   fixed_reads_underrun_payload_reads_truncate.2.2.1 _ (by decide),
   fixed_reads_underrun_payload_reads_truncate.2.2.2.1 _ (by decide),
   fixed_reads_underrun_payload_reads_truncate.2.2.2.2.1
     { buffer := [0, 5], offset := 0 } 5 { buffer := [0, 5], offset := 2 }
     (by decide) (by decide) (by decide),
   fixed_reads_underrun_payload_reads_truncate.2.2.2.2.2
     { buffer := [0, 0, 0, 5], offset := 0 } 5 { buffer := [0, 0, 0, 5], offset := 4 }
     (by decide) (by decide) (by decide)⟩

/-- Counterexample to C2 as stated: slice with size 5 on a 2-byte buffer
does not fail, it returns a truncated sub-decoder, and explicit-length
readBytes likewise succeeds with a truncated slice. -/
theorem slice_oversize_counterexample :
    Decoder.slice { buffer := [1, 2], offset := 0 } 5 = { buffer := [1, 2], offset := 0 } ∧
    Decoder.readBytesExplicit { buffer := [1, 2], offset := 0 } 5 =
      (some [1, 2], { buffer := [1, 2], offset := 5 }) :=
  ⟨by decide, by decide⟩

/-- C2 (amended): slice(size) never fails; it returns a sub-decoder over the
clamped region (at most the remaining bytes, so a truncated buffer whenever
size exceeds them), and explicit-length readBytes never fails: it returns
the clamped slice and still advances the offset by the full requested
length. -/
theorem slice_readBytesExplicit_clamp :
    (∀ (d : Decoder) (size : Int), 0 ≤ d.offset → d.offset ≤ (d.buffer.length : Int) →
      0 ≤ size →
      d.slice size =
        { buffer := (d.buffer.drop d.offset.toNat).take size.toNat, offset := 0 }) ∧
    (∀ (d : Decoder) (size : Int), 0 ≤ d.offset → d.offset ≤ (d.buffer.length : Int) →
      0 ≤ size →
      d.readBytesExplicit size = (some ((d.buffer.drop d.offset.toNat).take size.toNat),
        { buffer := d.buffer, offset := d.offset + size })) := by
  constructor
  · intro d size h0 h1 h2
    unfold Decoder.slice
    rw [jsSlice_drop_take d.buffer d.offset size h0 h1 h2]
  · intro d size h0 h1 h2
    unfold Decoder.readBytesExplicit
    rw [if_neg (by omega : ¬ size = -1)]
    rw [jsSlice_drop_take d.buffer d.offset size h0 h1 h2]

/-- Witness for the amended C2 with size 5 against 2 remaining bytes. -/
theorem slice_readBytesExplicit_clamp_witness :
    Decoder.slice { buffer := [1, 2], offset := 0 } 5 =
      { buffer := (([1, 2] : List Nat).drop ((0 : Int)).toNat).take ((5 : Int)).toNat,
        offset := 0 } ∧
    Decoder.readBytesExplicit { buffer := [1, 2], offset := 0 } 5 =
      (some ((([1, 2] : List Nat).drop ((0 : Int)).toNat).take ((5 : Int)).toNat),
        { buffer := [1, 2], offset := (0 : Int) + 5 }) :=
  ⟨slice_readBytesExplicit_clamp.1 { buffer := [1, 2], offset := 0 } 5
     (by decide) (by decide) (by decide),
   slice_readBytesExplicit_clamp.2 { buffer := [1, 2], offset := 0 } 5
     (by decide) (by decide) (by decide)⟩

/-! Result forms of readString after a successful prefix read. -/

theorem readString_result_null {d : Decoder} {n : Int} {d1 : Decoder}
    (h16 : d.readInt16 = some (n, d1)) (he : n = -1) :
    d.readString = some (none, d1) := by
  unfold Decoder.readString
  rw [h16]
  show (if n = -1 then some (none, d1)
    else some (some (jsSlice d1.buffer d1.offset (d1.offset + n)),
      ({ buffer := d1.buffer, offset := d1.offset + n } : Decoder))) = some (none, d1)
  rw [if_pos he]

theorem readString_result_slice {d : Decoder} {n : Int} {d1 : Decoder}
    (h16 : d.readInt16 = some (n, d1)) (hne : ¬ n = -1) :
    d.readString = some (some (jsSlice d1.buffer d1.offset (d1.offset + n)),
      { buffer := d1.buffer, offset := d1.offset + n }) := by
  unfold Decoder.readString
  rw [h16]
  show (if n = -1 then some (none, d1)
    else some (some (jsSlice d1.buffer d1.offset (d1.offset + n)),
      ({ buffer := d1.buffer, offset := d1.offset + n } : Decoder))) =
    some (some (jsSlice d1.buffer d1.offset (d1.offset + n)),
      ({ buffer := d1.buffer, offset := d1.offset + n } : Decoder))
  rw [if_neg hne]

/-- Counterexample to C3 as stated: readAll from offset 1 of a 2-byte buffer
advances the offset to 3, past the end, without failing; and readString with
a negative length prefix (bytes 0xFF 0xFD decode to -3) moves the offset
backwards from 2 to -1, so the offset is neither monotone nor bounded by the
buffer across all reads. -/
theorem offset_invariant_counterexample :
    Decoder.readAll { buffer := [0, 0], offset := 1 } =
      ([0], { buffer := [0, 0], offset := 3 }) ∧
    Decoder.readString { buffer := [255, 253], offset := 0 } =
      some (some [], { buffer := [255, 253], offset := -1 }) :=
  ⟨by decide, by decide⟩

/-- C3 (amended): the offset is non-decreasing across forward with a
non-negative size, across readAll, and across readString whenever the
decoded length prefix is at least -1; but reads that would advance the
offset past length(buffer) do not all fail: readAll always advances by the
whole buffer length, exceeding length(buffer) from any positive offset. -/
theorem offset_monotone_amended :
    (∀ (d : Decoder) (size : Int), 0 ≤ size → d.offset ≤ (d.forward size).offset) ∧
    (∀ d : Decoder, d.offset ≤ (d.readAll).2.offset) ∧
    (∀ (d : Decoder) (n : Int) (d1 : Decoder) (r : Option (List Nat)) (d2 : Decoder),
      d.readInt16 = some (n, d1) → -1 ≤ n → d.readString = some (r, d2) →
      d.offset ≤ d2.offset) ∧
    (∀ d : Decoder, 0 < d.offset → (d.buffer.length : Int) < (d.readAll).2.offset) := by
  refine ⟨?_, ?_, ?_, ?_⟩
  · intro d size hs
    show d.offset ≤ d.offset + size
    omega
  · intro d
    show d.offset ≤ d.offset + (d.buffer.length : Int)
    omega
  · intro d n d1 r d2 h16 hn hrs
    obtain ⟨hb, ho, hge, hle⟩ := readInt16_inv h16
    by_cases he : n = -1
    · rw [readString_result_null h16 he] at hrs
      have hd2 : d1 = d2 := congrArg Prod.snd (Option.some.inj hrs)
      rw [← hd2]
      omega
    · rw [readString_result_slice h16 he] at hrs
      have hd2 : ({ buffer := d1.buffer, offset := d1.offset + n } : Decoder) = d2 :=
        congrArg Prod.snd (Option.some.inj hrs)
      have ho2 : d2.offset = d1.offset + n := by rw [← hd2]
      omega
  · intro d h
    show (d.buffer.length : Int) < d.offset + (d.buffer.length : Int)
    omega

/-- Witness for the amended C3 at concrete states. -/
theorem offset_monotone_amended_witness :
    (({ buffer := [], offset := 0 } : Decoder)).offset ≤
      (Decoder.forward { buffer := [], offset := 0 } 2).offset ∧
    (({ buffer := [9], offset := 1 } : Decoder)).offset ≤
      (Decoder.readAll { buffer := [9], offset := 1 }).2.offset ∧
    (({ buffer := [0, 1, 9], offset := 0 } : Decoder)).offset ≤
      (({ buffer := [0, 1, 9], offset := 3 } : Decoder)).offset ∧
    ((([9] : List Nat)).length : Int) < (Decoder.readAll { buffer := [9], offset := 1 }).2.offset :=
  ⟨offset_monotone_amended.1 { buffer := [], offset := 0 } 2 (by decide),
   offset_monotone_amended.2.1 { buffer := [9], offset := 1 },
   offset_monotone_amended.2.2.1 { buffer := [0, 1, 9], offset := 0 } 1
     { buffer := [0, 1, 9], offset := 2 } (some [9]) { buffer := [0, 1, 9], offset := 3 }
     (by decide) (by decide) (by decide),
   offset_monotone_amended.2.2.2 { buffer := [9], offset := 1 } (by decide)⟩
